import Mathlib

/-!
# Verification of the redis-hexastore core

Shallow embedding of `src/index.ts` (class `Hexastore`) together with a
functional model of the Redis sorted-set commands the code issues
(`zadd`, `zrem`, `zrangebylex`, `zremrangebylex`, `zscore`, `zlexcount`).

Strings are modelled as `List Char`; JavaScript `String.prototype.split`,
`Array.prototype.join` and string truthiness are embedded explicitly.
Redis lexicographic member order is codepoint order on the character
lists, which agrees with the byte order Redis uses because UTF-8 is
order-preserving.
-/

namespace RedisHexastore

abbrev Str := List Char

/-- Shorthand turning a Lean string literal into the `List Char` model. -/
def cs (s : String) : Str := s.toList

/-- The byte the separator sequence is built from (`"\0"`). -/
def sepChar : Char := Char.ofNat 0

/-- The maximal sentinel byte (`"\xff"`), used as an unbounded upper cap. -/
def ffChar : Char := Char.ofNat 255

/-- `SEPARATOR = "\0\0"` from the source. -/
def SEP : Str := [sepChar, sepChar]

/-- `DEFAULT_PAGE_SIZE = 100`. -/
def DEFAULT_PAGE_SIZE : Nat := 100

/-- JavaScript `Array.prototype.join(SEPARATOR)`:
interleave the separator between the pieces. -/
def joinSep : List Str → Str
  | [] => []
  | [x] => x
  | x :: xs => x ++ SEP ++ joinSep xs

/-- Worker for `splitSep`: scan left to right for the two-byte separator,
accumulating the current piece in reverse. -/
def splitSepAux : List Char → List Char → List (List Char)
  | c1 :: c2 :: rest, acc =>
    if c1 = sepChar ∧ c2 = sepChar then acc.reverse :: splitSepAux rest []
    else splitSepAux (c2 :: rest) (c1 :: acc)
  | [c], acc => [acc.reverse ++ [c]]
  | [], acc => [acc.reverse]

/-- JavaScript `hash.split(SEPARATOR)` for the two-byte separator:
leftmost-first, non-overlapping. -/
def splitSep (s : Str) : List Str := splitSepAux s []

/-- Codepoint comparison `a ≤ b`, matching the byte order Redis uses. -/
def lexLe : Str → Str → Bool
  | [], _ => true
  | _ :: _, [] => false
  | a :: as, b :: bs =>
    if a.toNat < b.toNat then true
    else if b.toNat < a.toNat then false
    else lexLe as bs

/-- Strict codepoint comparison `a < b`. -/
def lexLt : Str → Str → Bool
  | _, [] => false
  | [], _ :: _ => true
  | a :: as, b :: bs =>
    if a.toNat < b.toNat then true
    else if b.toNat < a.toNat then false
    else lexLt as bs

/-- Interpret a Redis lexicographic *lower* bound: `[v` is inclusive,
`(v` is exclusive.  The code never sends `-`/`+`. -/
def matchLower (bound : Str) (k : Str) : Bool :=
  match bound with
  | '[' :: v => lexLe v k
  | '(' :: v => lexLt v k
  | _ => false

/-- Interpret a Redis lexicographic *upper* bound. -/
def matchUpper (bound : Str) (k : Str) : Bool :=
  match bound with
  | '[' :: v => lexLe k v
  | '(' :: v => lexLt k v
  | _ => false

/-- A member is inside a `zrangebylex`-style window. -/
def inLexRange (lo hi k : Str) : Bool := matchLower lo k && matchUpper hi k

/-- Insertion step of the sort used to model the sorted set's member order. -/
def insertLex (k : Str) : List Str → List Str
  | [] => [k]
  | x :: xs => if lexLe k x then k :: x :: xs else x :: insertLex k xs

/-- Sort members into Redis lexicographic order. -/
def sortLex (l : List Str) : List Str := l.foldr insertLex []

/-- The Redis sorted set backing one hexastore: its member strings. -/
abbrev Store := List Str

/-- `ZADD key 0 member`: sets have no duplicate members. -/
def zadd (store : Store) (k : Str) : Store :=
  if k ∈ store then store else store ++ [k]

/-- `ZRANGEBYLEX key lo hi LIMIT 0 count`. -/
def zrangebylexStore (store : Store) (lo hi : Str) (count : Nat) : List Str :=
  ((sortLex store).filter (fun k => inLexRange lo hi k)).take count

/-- `ZREMRANGEBYLEX key lo hi`: the store afterwards. -/
def zremrangebylexStore (store : Store) (lo hi : Str) : Store :=
  store.filter (fun k => !(inLexRange lo hi k))

/-! ## Triples and the encoder -/

structure Triple where
  subject : Str
  predicate : Str
  object : Str
deriving DecidableEq, Repr, Inhabited

structure PartialTriple where
  subject : Option Str
  predicate : Option Str
  object : Option Str
deriving DecidableEq, Repr

inductive FieldName where
  | subject
  | predicate
  | object
deriving DecidableEq, Repr, Inhabited

def Triple.get (t : Triple) : FieldName → Str
  | .subject => t.subject
  | .predicate => t.predicate
  | .object => t.object

/-- JavaScript truthiness of an optional string field:
`undefined` and `""` are both falsy. -/
def truthy : Option Str → Bool
  | some s => !s.isEmpty
  | none => false

/-- `Hexastore.getHashes`: the six permutation keys of a triple. -/
def getHashes (t : Triple) : List Str :=
  [joinSep [cs "spo", t.subject, t.predicate, t.object],
   joinSep [cs "sop", t.subject, t.object, t.predicate],
   joinSep [cs "pos", t.predicate, t.object, t.subject],
   joinSep [cs "osp", t.object, t.subject, t.predicate],
   joinSep [cs "pso", t.predicate, t.subject, t.object],
   joinSep [cs "ops", t.object, t.predicate, t.subject]]

/-- `Hexastore.getHashRange`: from a partial triple, either one exact key
(full triple) or bracketed start/end range bounds. -/
def getHashRange (t : PartialTriple) : Str × Option Str :=
  if truthy t.subject && truthy t.predicate && truthy t.object then
    (joinSep [cs "spo", t.subject.getD [], t.predicate.getD [], t.object.getD []], none)
  else
    let segments : List Str :=
      if truthy t.subject && truthy t.predicate then
        [cs "spo", t.subject.getD [], t.predicate.getD []]
      else if truthy t.subject && truthy t.object then
        [cs "osp", t.object.getD [], t.subject.getD []]
      else if truthy t.predicate && truthy t.object then
        [cs "pos", t.predicate.getD [], t.object.getD []]
      else if truthy t.subject then [cs "spo", t.subject.getD []]
      else if truthy t.predicate then [cs "pos", t.predicate.getD []]
      else if truthy t.object then [cs "osp", t.object.getD []]
      else []
    ('[' :: joinSep segments, some ('[' :: joinSep (segments ++ [[ffChar]])))

/-! ## Filters -/

/-- `HexastoreFilter`: the bounded field, its caps, and the fixed fields. -/
structure Filter where
  field : FieldName
  min : Option Str
  max : Option Str
  subject : Option Str
  predicate : Option Str
  object : Option Str
deriving DecidableEq, Repr

inductive Err where
  | complexStatement
  | unknownVariable
  | rangeEncodingMismatch
  | badHash
  | filterBothOpen
  | badPagination
deriving DecidableEq, Repr

/-- `getRangeCapsFromFilter`: `min ?? ""` and `max ?? "\xff"`. -/
def getRangeCapsFromFilter (f : Filter) : Str × Str :=
  (f.min.getD [], f.max.getD [ffChar])

/-- `getSubjectFilterRange`. -/
def getSubjectFilterRange (f : Filter) : Str × Str :=
  let mn := (getRangeCapsFromFilter f).1
  let mx := (getRangeCapsFromFilter f).2
  let se : List Str × List Str :=
    if truthy f.predicate && truthy f.object then
      ([cs "pos", f.predicate.getD [], f.object.getD [], mn],
       [cs "pos", f.predicate.getD [], f.object.getD [], mx])
    else if truthy f.predicate then
      ([cs "pso", f.predicate.getD [], mn], [cs "pso", f.predicate.getD [], mx])
    else if truthy f.object then
      ([cs "osp", f.object.getD [], mn], [cs "osp", f.object.getD [], mx])
    else ([cs "spo", mn], [cs "spo", mx])
  ('[' :: joinSep se.1, '[' :: joinSep se.2)

/-- `getObjectFilterRange`.  Note the first branch of the source really
does build the start from tag `spo` and the end from tag `osp`. -/
def getObjectFilterRange (f : Filter) : Str × Str :=
  let mn := (getRangeCapsFromFilter f).1
  let mx := (getRangeCapsFromFilter f).2
  let se : List Str × List Str :=
    if truthy f.subject && truthy f.predicate then
      ([cs "spo", f.subject.getD [], f.predicate.getD [], mn],
       [cs "osp", f.subject.getD [], f.predicate.getD [], mx])
    else if truthy f.subject then
      ([cs "spo", f.subject.getD [], mn], [cs "spo", f.subject.getD [], mx])
    else if truthy f.predicate then
      ([cs "pos", f.predicate.getD [], mn], [cs "pos", f.predicate.getD [], mx])
    else ([cs "osp", mn], [cs "osp", mx])
  ('[' :: joinSep se.1, '[' :: joinSep se.2)

/-- `getPredicateFilterRange`. -/
def getPredicateFilterRange (f : Filter) : Str × Str :=
  let mn := (getRangeCapsFromFilter f).1
  let mx := (getRangeCapsFromFilter f).2
  let se : List Str × List Str :=
    if truthy f.subject && truthy f.object then
      ([cs "osp", f.object.getD [], f.subject.getD [], mn],
       [cs "osp", f.object.getD [], f.subject.getD [], mx])
    else if truthy f.subject then
      ([cs "spo", f.subject.getD [], mn], [cs "spo", f.subject.getD [], mx])
    else if truthy f.object then
      ([cs "ops", f.object.getD [], mn], [cs "ops", f.object.getD [], mx])
    else ([cs "pos", mn], [cs "pos", mx])
  ('[' :: joinSep se.1, '[' :: joinSep se.2)

/-- `getHashFilterRange`: reject doubly-open caps, then dispatch on the
bounded field. -/
def getHashFilterRange (f : Filter) : Except Err (Str × Str) :=
  if f.min = none ∧ f.max = none then .error .filterBothOpen
  else
    match f.field with
    | .subject => .ok (getSubjectFilterRange f)
    | .predicate => .ok (getPredicateFilterRange f)
    | .object => .ok (getObjectFilterRange f)

/-! ## Decoding and range queries -/

/-- `getTripleHash(encoding, triple)`: re-encode a cursor triple under the
scan's permutation tag.  An out-of-alphabet tag character contributes the
empty segment, matching `[undefined].join` in JavaScript. -/
def charField : Char → Option FieldName := fun c =>
  if c = 's' then some .subject
  else if c = 'p' then some .predicate
  else if c = 'o' then some .object
  else none

def getTripleHash (encoding : Str) (t : Triple) : Str :=
  encoding ++ SEP ++
    joinSep (encoding.map (fun c => match charField c with
      | some fld => t.get fld
      | none => []))

/-- `getEncodingFromHash`: first split segment with the leading Redis
inclusive/exclusive specifier removed. -/
def getEncodingFromHash (h : Str) : Str :=
  ((splitSep h).headD []).drop 1

/-- One assignment step of the decoder's object construction. -/
def assignField (acc : Option Str × Option Str × Option Str) (p : Char × Str) :
    Option Str × Option Str × Option Str :=
  match charField p.1 with
  | some .subject => (some p.2, acc.2.1, acc.2.2)
  | some .predicate => (acc.1, some p.2, acc.2.2)
  | some .object => (acc.1, acc.2.1, some p.2)
  | none => acc

/-- The triple reconstruction at the end of `queryRange`: split the raw
key, zip the tag characters with the first three segments, and rebuild the
triple.  `none` models the runtime failures of the source (tag shorter
than three characters, tag character outside `s`/`p`/`o`, fewer than four
split segments); extra segments and extra tag characters are ignored just
as the JavaScript destructuring ignores them. -/
def decodeHash (h : Str) : Option Triple :=
  match splitSep h with
  | tagS :: s1 :: s2 :: s3 :: _ =>
    match tagS with
    | c1 :: c2 :: c3 :: _ =>
      match [( c1, s1), (c2, s2), (c3, s3)].foldl assignField (none, none, none) with
      | (some a, some b, some c) => some ⟨a, b, c⟩
      | _ => none
    | _ => none
  | _ => none

/-- `queryRange` without caller pagination: the default `{first: 100}`
forward scan.  The start/end permutation tags are compared first; a
mismatch is the internal-consistency defect of the source. -/
def queryRangeOp (store : Store) (start e : Str) : Except Err (List Triple) :=
  if getEncodingFromHash start = getEncodingFromHash e then
    match (zrangebylexStore store start e DEFAULT_PAGE_SIZE).mapM decodeHash with
    | some ts => .ok ts
    | none => .error .badHash
  else .error .rangeEncodingMismatch

/-- `query`: exact membership check for a full triple, range scan
otherwise. -/
def queryOp (store : Store) (q : PartialTriple) : Except Err (List Triple) :=
  match getHashRange q with
  | (start, none) =>
    if start ∈ store then
      .ok [⟨q.subject.getD [], q.predicate.getD [], q.object.getD []⟩]
    else .ok []
  | (start, some e) => queryRangeOp store start e

/-- `filter` (default pagination). -/
def filterOp (store : Store) (f : Filter) : Except Err (List Triple) := do
  let (start, e) ← getHashFilterRange f
  queryRangeOp store start e

/-- `save`: `ZADD` all six permutation keys. -/
def save (store : Store) (t : Triple) : Store :=
  (getHashes t).foldl zadd store

/-- `delete`: a partial triple removes the whole matching range, a full
triple removes its six keys one by one. -/
def deleteOp (store : Store) (t : PartialTriple) : Store :=
  match getHashRange t with
  | (start, some e) => zremrangebylexStore store start e
  | (_, none) =>
    (getHashes ⟨t.subject.getD [], t.predicate.getD [], t.object.getD []⟩).foldl
      (fun s k => s.filter (fun m => m ≠ k)) store

inductive Dir where
  | before
  | after
deriving DecidableEq, Repr, Inhabited

/-- `ZLEXCOUNT key lo hi`. -/
def zlexcountStore (store : Store) (lo hi : Str) : Nat :=
  (store.filter (fun k => inLexRange lo hi k)).length

/-- `count`: derive bounds from the query or the filter, tighten the
cursor side exclusively, then count. -/
def countOp (store : Store) (direction : Dir) (cursor : Option Triple)
    (q : Option PartialTriple) (f : Option Filter) : Except Err Nat := do
  if q.isSome ∧ f.isSome then throw .badPagination
  else if q.isNone ∧ f.isNone then throw .badPagination
  else
    let bounds : Except Err (Str × Option Str) :=
      match q with
      | some q' => .ok (getHashRange q')
      | none =>
        match f with
        | some f' => (getHashFilterRange f').map (fun p => (p.1, some p.2))
        | none => .error .badPagination
    match ← bounds with
    | (_, none) => return 0
    | (start, some e) =>
      let enc := getEncodingFromHash start
      match direction with
      | .after =>
        let start' := match cursor with
          | some c => '(' :: getTripleHash enc c
          | none => start
        return zlexcountStore store start' e
      | .before =>
        let e' := match cursor with
          | some c => '(' :: getTripleHash enc c
          | none => e
        return zlexcountStore store start e'

/-! ## The join engine (`search`)

A statement field is either a literal string or a variable token.  `v()`
produces `Symbol.for(name)`, a registry symbol whose `Symbol.keyFor` is
the name; a token made elsewhere has no registry key, modelled as
`var none`. -/

inductive SField where
  | lit (s : Str)
  | var (key : Option Str)
deriving DecidableEq, Repr

structure SearchStatement where
  subject : SField
  predicate : SField
  object : SField
deriving DecidableEq, Repr

/-- The statement object as the caller sees it after `search` has run:
`delete query[key]` removes a field in place, modelled as `none`. -/
structure MutStatement where
  subject : Option SField
  predicate : Option SField
  object : Option SField
deriving DecidableEq, Repr

def SField.isVar : SField → Bool
  | .var _ => true
  | .lit _ => false

/-- `isComplexStatement`: all three fields are symbols. -/
def isComplexStatement (st : SearchStatement) : Bool :=
  st.subject.isVar && st.predicate.isVar && st.object.isVar

/-- Materialized bindings: variable name → JS `Set` (insertion-ordered,
duplicate-free list). -/
abbrev Mat := List (Str × List Str)

/-- `new Set(values)`: deduplicate keeping first occurrences. -/
def mkSet (l : List Str) : List Str :=
  l.foldl (fun acc x => if x ∈ acc then acc else acc ++ [x]) []

/-- JS object property assignment on a string-keyed map: replace in place
if the key exists, append otherwise. -/
def upsert (m : List (Str × List Str)) (k : Str) (v : List Str) :
    List (Str × List Str) :=
  if (m.lookup k).isSome then
    m.map (fun p => if p.1 = k then (k, v) else p)
  else m ++ [(k, v)]

/-- Same assignment discipline for the per-statement `targets` object. -/
def upsertT (m : List (Str × FieldName)) (k : Str) (v : FieldName) :
    List (Str × FieldName) :=
  if (m.lookup k).isSome then
    m.map (fun p => if p.1 = k then (k, v) else p)
  else m ++ [(k, v)]

def deleteField (q : MutStatement) : FieldName → MutStatement
  | .subject => { q with subject := none }
  | .predicate => { q with predicate := none }
  | .object => { q with object := none }

/-- The `Object.entries(statement)` loop: collect `targets` and delete the
variable fields from the (aliased) query object; an unregistered token is
the unknown-variable rejection. -/
def buildTargets (st : SearchStatement) :
    Except Err (List (Str × FieldName) × MutStatement) :=
  [(FieldName.subject, st.subject), (FieldName.predicate, st.predicate),
   (FieldName.object, st.object)].foldlM
    (fun acc e =>
      match e.2 with
      | .lit _ => Except.ok acc
      | .var none => Except.error Err.unknownVariable
      | .var (some k) => Except.ok (upsertT acc.1 k e.1, deleteField acc.2 e.1))
    ([], ⟨some st.subject, some st.predicate, some st.object⟩)

/-- The partial triple actually passed to `query`: the literal fields that
survived the deletions. -/
def toPartial (q : MutStatement) : PartialTriple :=
  let conv : Option SField → Option Str := fun f =>
    match f with
    | some (.lit s) => some s
    | _ => none
  ⟨conv q.subject, conv q.predicate, conv q.object⟩

/-- `materialized[key] && materialized[key].has(triple[target])`. -/
def matBound (m : Mat) (k : Str) (v : Str) : Bool :=
  match m.lookup k with
  | some s => decide (v ∈ s)
  | none => false

/-- The nested push loop of `search` when bindings exist: for each result
triple, push it once per target whose materialized set contains the
triple's value at the target position. -/
def semiJoinFiltered (m : Mat) (targets : List (Str × FieldName))
    (result : List Triple) : List Triple :=
  result.foldl
    (fun acc tr =>
      targets.foldl
        (fun acc2 p => if matBound m p.1 (tr.get p.2) then acc2 ++ [tr] else acc2)
        acc)
    []

/-- The per-statement filtering step: keep everything while no variable
has ever been materialized, otherwise run the push loop. -/
def stepFilter (m : Mat) (targets : List (Str × FieldName))
    (result : List Triple) : List Triple :=
  if m.isEmpty then result else semiJoinFiltered m targets result

/-- One statement of the `search` loop; also returns the residual
statement object (the caller's object after the in-place deletions). -/
def processStatement (store : Store) (m : Mat) (st : SearchStatement) :
    Except Err (Mat × MutStatement) := do
  if isComplexStatement st then throw .complexStatement
  else
    let (targets, mq) ← buildTargets st
    let result ← queryOp store (toPartial mq)
    let filtered := stepFilter m targets result
    let m' := targets.foldl
      (fun acc p => upsert acc p.1 (mkSet (filtered.map (fun tr => tr.get p.2))))
      m
    return (m', mq)

/-- The `search` loop, threading the materialized bindings and recording
the residual statement objects. -/
def searchRun (store : Store) : Mat → List SearchStatement →
    Except Err (Mat × List MutStatement)
  | m, [] => .ok (m, [])
  | m, st :: rest => do
    let (m', q) ← processStatement store m st
    let (mf, qs) ← searchRun store m' rest
    return (mf, q :: qs)

/-- `search`: the final variable → value-set mapping. -/
def searchOp (store : Store) (stmts : List SearchStatement) :
    Except Err Mat :=
  (searchRun store [] stmts).map (fun p => p.1)

/-- The residual statement objects `search` leaves in the caller's hands. -/
def searchMutations (store : Store) (stmts : List SearchStatement) :
    Except Err (List MutStatement) :=
  (searchRun store [] stmts).map (fun p => p.2)

/-- A statement object keeping exactly its literal fields. -/
def stripVars (st : SearchStatement) : MutStatement :=
  let keep : SField → Option SField := fun f =>
    match f with
    | .lit s => some (.lit s)
    | .var _ => none
  ⟨keep st.subject, keep st.predicate, keep st.object⟩

def SField.isUnknown : SField → Bool
  | .var none => true
  | _ => false

/-- Some field of the statement holds a token with no registry key. -/
def hasUnknown (st : SearchStatement) : Bool :=
  st.subject.isUnknown || st.predicate.isUnknown || st.object.isUnknown

/-- A string contains the two-byte separator sequence as a contiguous
substring. -/
def hasSepSeq : Str → Bool
  | c1 :: c2 :: rest => (c1 = sepChar && c2 = sepChar) || hasSepSeq (c2 :: rest)
  | _ => false

/-- No character of the string is the separator byte or the sentinel. -/
def cleanStr (s : Str) : Prop := ∀ c ∈ s, c ≠ sepChar ∧ c ≠ ffChar

instance (s : Str) : Decidable (cleanStr s) := by
  unfold cleanStr; infer_instance

/-! ## Concrete instances used by the claim analyses -/

/-- A generic demonstration triple. -/
def tDemo : Triple := ⟨cs "a", cs "b", cs "c"⟩

/-- A triple whose subject ends in a single separator byte: it contains
neither the full separator sequence nor the sentinel. -/
def tBad : Triple := ⟨['a', sepChar], cs "b", cs "c"⟩

/-- An object-bounded filter with both subject and predicate fixed. -/
def fltC1 : Filter :=
  ⟨.object, some (cs "c"), some (cs "d"), some (cs "a"), some (cs "b"), none⟩

/-- The five edges of the specification's join scenario. -/
def storeC6 : Store :=
  [⟨cs "Adrian", cs "likes", cs "beer"⟩, ⟨cs "Ana", cs "likes", cs "beer"⟩,
   ⟨cs "Adrian", cs "lives", cs "Romania"⟩, ⟨cs "Ana", cs "lives", cs "Germany"⟩,
   ⟨cs "Erika", cs "lives", cs "Germany"⟩].foldl save []

/-- `(who, "likes", what)` then `(who, "lives", where)`. -/
def stmtsC6 : List SearchStatement :=
  [⟨.var (some (cs "who")), .lit (cs "likes"), .var (some (cs "what"))⟩,
   ⟨.var (some (cs "who")), .lit (cs "lives"), .var (some (cs "where"))⟩]

/-- The value `search` computes on the scenario. -/
def mC6 : Mat :=
  [(cs "who", [cs "Ana", cs "Adrian"]), (cs "what", [cs "beer"]),
   (cs "where", [cs "Germany", cs "Romania"])]

/-- Two unrelated edges: the second statement's variable is fresh. -/
def storeC2 : Store :=
  [⟨cs "A", cs "p", cs "B"⟩, ⟨cs "C", cs "q", cs "D"⟩].foldl save []

def stmtsC2 : List SearchStatement :=
  [⟨.lit (cs "A"), .lit (cs "p"), .var (some (cs "X"))⟩,
   ⟨.lit (cs "C"), .lit (cs "q"), .var (some (cs "Y"))⟩]

/-- A statement whose three fields are all variable tokens, the first one
unregistered. -/
def st0 : SearchStatement :=
  ⟨.var none, .var (some (cs "a")), .var (some (cs "b"))⟩

/-- The triple of the second `stmtsC2` statement. -/
def tCD : Triple := ⟨cs "C", cs "q", cs "D"⟩

/-- A target list binding variable `Y` to the object position. -/
def tgtY : List (Str × FieldName) := [(cs "Y", .object)]

/-- Materialized bindings where `Y` holds `{D}`. -/
def matY : Mat := [(cs "Y", [cs "D"])]

/-- The value `searchRun` computes on the `storeC2` scenario: the final
bindings together with the residual statement objects. -/
def resC10 : Mat × List MutStatement :=
  ([(cs "X", [cs "B"]), (cs "Y", [])],
   [⟨some (.lit (cs "A")), some (.lit (cs "p")), none⟩,
    ⟨some (.lit (cs "C")), some (.lit (cs "q")), none⟩])

deriving instance DecidableEq for Except

/-! ## Claim theorems -/

/-- **C1** (code bug evaluation).  The object-bounded filter with both
subject and predicate fixed is accepted by the planner (both caps are
present), yet the start bound decodes to permutation tag `spo` while the
end bound decodes to `osp`, so the range-query path raises the internal
tag-mismatch error on every store. -/
theorem c1_filter_tag_mismatch_eval :
    (fltC1.min.isSome ∨ fltC1.max.isSome) ∧
    (getHashFilterRange fltC1).map
        (fun p => (getEncodingFromHash p.1, getEncodingFromHash p.2)) =
      .ok (cs "spo", cs "osp") ∧
    cs "spo" ≠ cs "osp" ∧
    filterOp [] fltC1 = .error .rangeEncodingMismatch := by decide

/-- **C6**.  With exactly the five scenario edges stored, searching
`(who, "likes", what)` then `(who, "lives", where)` materializes the
bindings `who = {Adrian, Ana}`, `what = {beer}`,
`where = {Germany, Romania}`. -/
theorem c6_join_scenario :
    searchOp storeC6 stmtsC6 = .ok mC6 ∧
    ((mC6.lookup (cs "who")).getD []).toFinset = {cs "Adrian", cs "Ana"} ∧
    ((mC6.lookup (cs "what")).getD []).toFinset = {cs "beer"} ∧
    ((mC6.lookup (cs "where")).getD []).toFinset =
      {cs "Germany", cs "Romania"} := by decide

/-- **C2** (counterexample).  The second statement's only variable `Y`
has no prior binding, and the statement's query does return a triple, yet
`search` keeps none of the results (the materialized set of `Y` comes out
empty instead of `{D}`): the filter branches on the materialized map
being nonempty, not on the current statement's variables. -/
theorem c2_counterexample :
    queryOp storeC2 ⟨some (cs "C"), some (cs "q"), none⟩ =
      .ok [⟨cs "C", cs "q", cs "D"⟩] ∧
    searchOp storeC2 stmtsC2 = .ok [(cs "X", [cs "B"]), (cs "Y", [])] ∧
    ([] : List Str) ≠ [cs "D"] := by decide

/-- **C3** (counterexample).  The triple whose subject is `"a\0"`
contains neither the separator sequence `"\0\0"` nor the sentinel byte in
any field, yet decoding its first permutation key does not reconstruct
the triple: the stray separator byte fuses with the key separator and
shifts the segments. -/
theorem c3_counterexample :
    hasSepSeq tBad.subject = false ∧ ffChar ∉ tBad.subject ∧
    hasSepSeq tBad.predicate = false ∧ ffChar ∉ tBad.predicate ∧
    hasSepSeq tBad.object = false ∧ ffChar ∉ tBad.object ∧
    (getHashes tBad).headD [] ∈ getHashes tBad ∧
    decodeHash ((getHashes tBad).headD []) ≠ some tBad := by decide

/-- **C5** (counterexample).  With no field supplied the planner emits
the bounds `"["` and `"[\xff"`, and both the `spo` key and the `pos` key
of a triple lie inside those bounds: the scan covers keys of different
permutation tags, not the full range of exactly one tag. -/
theorem c5_counterexample :
    getHashRange ⟨none, none, none⟩ = (['['], some ['[', ffChar]) ∧
    joinSep [cs "spo", cs "a", cs "b", cs "c"] ∈ getHashes tDemo ∧
    joinSep [cs "pos", cs "b", cs "c", cs "a"] ∈ getHashes tDemo ∧
    inLexRange ['['] ['[', ffChar] (joinSep [cs "spo", cs "a", cs "b", cs "c"]) = true ∧
    inLexRange ['['] ['[', ffChar] (joinSep [cs "pos", cs "b", cs "c", cs "a"]) = true ∧
    (joinSep [cs "spo", cs "a", cs "b", cs "c"]).take 3 ≠
      (joinSep [cs "pos", cs "b", cs "c", cs "a"]).take 3 := by decide

/-- **C8** (counterexample).  A statement whose three fields are all
variable tokens, one of them not obtained from `v()`, is rejected with
the complex-statement error rather than the unknown-variable error: the
all-variables check runs first. -/
theorem c8_counterexample :
    hasUnknown st0 = true ∧
    searchOp ([] : Store) [st0] = .error .complexStatement ∧
    Err.complexStatement ≠ Err.unknownVariable := by decide

/-! ## Splitting lemmas -/

theorem splitSepAux_append (xs rest : List Char) (acc : List Char)
    (h : ∀ c ∈ xs, c ≠ sepChar) :
    splitSepAux (xs ++ sepChar :: sepChar :: rest) acc =
      (acc.reverse ++ xs) :: splitSepAux rest [] := by
  induction xs generalizing acc with
  | nil => simp [splitSepAux]
  | cons x xs ih =>
    have hx : x ≠ sepChar := h x (by simp)
    have hxs : ∀ c ∈ xs, c ≠ sepChar := fun c hc => h c (by simp [hc])
    cases xs with
    | nil => simp [splitSepAux, hx]
    | cons y ys =>
      have hrec := ih (x :: acc) hxs
      simp only [List.cons_append] at hrec ⊢
      simp [splitSepAux, hx, hrec]

theorem splitSepAux_noSep (xs : List Char) (acc : List Char)
    (h : ∀ c ∈ xs, c ≠ sepChar) :
    splitSepAux xs acc = [acc.reverse ++ xs] := by
  induction xs generalizing acc with
  | nil => simp [splitSepAux]
  | cons x xs ih =>
    have hx : x ≠ sepChar := h x (by simp)
    have hxs : ∀ c ∈ xs, c ≠ sepChar := fun c hc => h c (by simp [hc])
    cases xs with
    | nil => simp [splitSepAux]
    | cons y ys =>
      have hrec := ih (x :: acc) hxs
      simp [splitSepAux, hx, hrec]

theorem splitSep_join4 (t a b c : Str)
    (ht : ∀ x ∈ t, x ≠ sepChar) (ha : ∀ x ∈ a, x ≠ sepChar)
    (hb : ∀ x ∈ b, x ≠ sepChar) (hc : ∀ x ∈ c, x ≠ sepChar) :
    splitSep (joinSep [t, a, b, c]) = [t, a, b, c] := by
  have e : joinSep [t, a, b, c] =
      t ++ sepChar :: sepChar ::
        (a ++ sepChar :: sepChar :: (b ++ sepChar :: sepChar :: c)) := by
    simp [joinSep, SEP]
  unfold splitSep
  rw [e, splitSepAux_append _ _ _ ht, splitSepAux_append _ _ _ ha,
    splitSepAux_append _ _ _ hb, splitSepAux_noSep _ _ hc]
  simp

/-! ## Shared helper lemmas -/

theorem truthy_of_ne (s : Str) (h : s ≠ []) : truthy (some s) = true := by
  cases s with
  | nil => exact absurd rfl h
  | cons c cs => rfl

/-- Every index key produced by the encoder lies inside the zero-field
bounds `"["` / `"[\xff"`. -/
theorem hash_in_full_range (t : Triple) (k : Str) (hk : k ∈ getHashes t) :
    inLexRange ['['] ['[', ffChar] k = true := by
  have step : ∀ (c : Char) (rest : Str), c.toNat < 255 →
      inLexRange ['['] ['[', ffChar] (c :: rest) = true := by
    intro c rest hc
    have hff : ffChar.toNat = 255 := rfl
    simp [inLexRange, matchLower, matchUpper, lexLe, hff, hc]
  simp only [getHashes, List.mem_cons, List.not_mem_nil, or_false] at hk
  rcases hk with rfl | rfl | rfl | rfl | rfl | rfl
  · exact step 's' _ (by decide)
  · exact step 's' _ (by decide)
  · exact step 'p' _ (by decide)
  · exact step 'o' _ (by decide)
  · exact step 'p' _ (by decide)
  · exact step 'o' _ (by decide)

/-! ## C3: decode/encode round trip -/

/-- **C3** (amended).  For a triple whose fields contain neither the
separator byte nor the sentinel byte, decoding any one of the six
permutation keys reconstructs exactly the triple. -/
theorem c3_roundtrip (t : Triple) (hs : cleanStr t.subject)
    (hp : cleanStr t.predicate) (ho : cleanStr t.object) :
    ∀ k ∈ getHashes t, decodeHash k = some t := by
  have hs' : ∀ c ∈ t.subject, c ≠ sepChar := fun c hc => (hs c hc).1
  have hp' : ∀ c ∈ t.predicate, c ≠ sepChar := fun c hc => (hp c hc).1
  have ho' : ∀ c ∈ t.object, c ≠ sepChar := fun c hc => (ho c hc).1
  have htag : ∀ (s : String), s.toList.all (fun c => c ≠ sepChar) = true →
      ∀ c ∈ cs s, c ≠ sepChar := by
    intro s hall c hc
    exact of_decide_eq_true (List.all_eq_true.mp hall c hc)
  intro k hk
  simp only [getHashes, List.mem_cons, List.not_mem_nil, or_false] at hk
  rcases hk with rfl | rfl | rfl | rfl | rfl | rfl <;>
    [skip; skip; skip; skip; skip; skip] <;>
    unfold decodeHash <;>
    rw [splitSep_join4 _ _ _ _ (htag _ (by decide)) (by assumption)
      (by assumption) (by assumption)] <;>
    rfl

/-- Witness for C3: the round trip at a concrete clean triple and its
`spo` key. -/
theorem c3_roundtrip_witness :
    decodeHash (joinSep [cs "spo", cs "a", cs "b", cs "c"]) = some tDemo :=
  c3_roundtrip tDemo (by decide) (by decide) (by decide) _ (by decide)

/-! ## C4: exact query after save -/

theorem mem_zadd_of_mem (s : Store) (x k : Str) (h : k ∈ s) : k ∈ zadd s x := by
  unfold zadd
  split
  · exact h
  · exact List.mem_append_left _ h

theorem mem_foldl_zadd_of_mem (l : List Str) (s : Store) (k : Str) (h : k ∈ s) :
    k ∈ l.foldl zadd s := by
  induction l generalizing s with
  | nil => exact h
  | cons x xs ih => exact ih _ (mem_zadd_of_mem s x k h)

theorem mem_foldl_zadd_self (l : List Str) (s : Store) (k : Str) (h : k ∈ l) :
    k ∈ l.foldl zadd s := by
  induction l generalizing s with
  | nil => cases h
  | cons x xs ih =>
    rcases List.mem_cons.mp h with rfl | h'
    · refine mem_foldl_zadd_of_mem xs _ k ?_
      unfold zadd
      split
      · assumption
      · exact List.mem_append_right _ (by simp)
    · exact ih _ h'

/-- **C4**.  After `save(T)`, the fully-specified query for `T` returns
exactly `[T]`; a fully-specified query whose `spo` key is absent from the
store returns `[]`. -/
theorem c4_exact_query :
    (∀ (store : Store) (t : Triple), t.subject ≠ [] → t.predicate ≠ [] →
      t.object ≠ [] →
      queryOp (save store t) ⟨some t.subject, some t.predicate, some t.object⟩ =
        .ok [t]) ∧
    (∀ (store : Store) (t : Triple), t.subject ≠ [] → t.predicate ≠ [] →
      t.object ≠ [] →
      joinSep [cs "spo", t.subject, t.predicate, t.object] ∉ store →
      queryOp store ⟨some t.subject, some t.predicate, some t.object⟩ =
        .ok []) := by
  constructor
  · intro store t h1 h2 h3
    have hmem : joinSep [cs "spo", t.subject, t.predicate, t.object] ∈
        save store t :=
      mem_foldl_zadd_self _ _ _ (by simp [getHashes])
    simp [queryOp, getHashRange, truthy_of_ne _ h1, truthy_of_ne _ h2,
      truthy_of_ne _ h3, hmem]
  · intro store t h1 h2 h3 hmem
    simp [queryOp, getHashRange, truthy_of_ne _ h1, truthy_of_ne _ h2,
      truthy_of_ne _ h3, hmem]

/-- Witness for C4: both conjuncts at a concrete triple. -/
theorem c4_exact_query_witness :
    queryOp (save [] tDemo) ⟨some (cs "a"), some (cs "b"), some (cs "c")⟩ =
      .ok [tDemo] ∧
    queryOp [] ⟨some (cs "a"), some (cs "b"), some (cs "c")⟩ = .ok [] :=
  ⟨c4_exact_query.1 [] tDemo (by decide) (by decide) (by decide),
   c4_exact_query.2 [] tDemo (by decide) (by decide) (by decide) (by decide)⟩

/-! ## C5: the range planner's permutation table -/

/-- **C5** (amended).  For one or two supplied (non-empty) fields the
planner picks the documented permutation and emits the tag-prefixed
supplied fields as the start and the same prefix extended with the
sentinel segment as the end; with no field supplied the bounds are
`"["`/`"[\xff"`, which cover every index key of every permutation. -/
theorem c5_range_planner :
    (∀ s p : Str, s ≠ [] → p ≠ [] →
      getHashRange ⟨some s, some p, none⟩ =
        ('[' :: joinSep [cs "spo", s, p],
         some ('[' :: joinSep [cs "spo", s, p, [ffChar]]))) ∧
    (∀ s o : Str, s ≠ [] → o ≠ [] →
      getHashRange ⟨some s, none, some o⟩ =
        ('[' :: joinSep [cs "osp", o, s],
         some ('[' :: joinSep [cs "osp", o, s, [ffChar]]))) ∧
    (∀ p o : Str, p ≠ [] → o ≠ [] →
      getHashRange ⟨none, some p, some o⟩ =
        ('[' :: joinSep [cs "pos", p, o],
         some ('[' :: joinSep [cs "pos", p, o, [ffChar]]))) ∧
    (∀ s : Str, s ≠ [] →
      getHashRange ⟨some s, none, none⟩ =
        ('[' :: joinSep [cs "spo", s],
         some ('[' :: joinSep [cs "spo", s, [ffChar]]))) ∧
    (∀ p : Str, p ≠ [] →
      getHashRange ⟨none, some p, none⟩ =
        ('[' :: joinSep [cs "pos", p],
         some ('[' :: joinSep [cs "pos", p, [ffChar]]))) ∧
    (∀ o : Str, o ≠ [] →
      getHashRange ⟨none, none, some o⟩ =
        ('[' :: joinSep [cs "osp", o],
         some ('[' :: joinSep [cs "osp", o, [ffChar]]))) ∧
    (getHashRange ⟨none, none, none⟩ = (['['], some ['[', ffChar]) ∧
     ∀ (t : Triple) (k : Str), k ∈ getHashes t →
       inLexRange ['['] ['[', ffChar] k = true) := by
  refine ⟨?_, ?_, ?_, ?_, ?_, ?_, rfl, hash_in_full_range⟩
  · intro s p h1 h2
    simp [getHashRange, truthy_of_ne _ h1, truthy_of_ne _ h2, truthy, h1, h2]
  · intro s o h1 h2
    simp [getHashRange, truthy_of_ne _ h1, truthy_of_ne _ h2, truthy, h1, h2]
  · intro p o h1 h2
    simp [getHashRange, truthy_of_ne _ h1, truthy_of_ne _ h2, truthy, h1, h2]
  · intro s h1
    simp [getHashRange, truthy_of_ne _ h1, truthy, h1]
  · intro p h1
    simp [getHashRange, truthy_of_ne _ h1, truthy, h1]
  · intro o h1
    simp [getHashRange, truthy_of_ne _ h1, truthy, h1]

/-- Witness for C5: the subject+predicate case at concrete fields. -/
theorem c5_range_planner_witness :
    getHashRange ⟨some (cs "a"), some (cs "b"), none⟩ =
      ('[' :: joinSep [cs "spo", cs "a", cs "b"],
       some ('[' :: joinSep [cs "spo", cs "a", cs "b", [ffChar]])) :=
  c5_range_planner.1 (cs "a") (cs "b") (by decide) (by decide)

/-! ## C9: delete with the empty partial triple -/

/-- **C9**.  `delete({})` computes the bounds `"["`/`"[\xff"`, every
index key of every permutation lies inside them, and the single range
removal empties any store whose members are encoder-produced keys. -/
theorem c9_delete_all :
    getHashRange ⟨none, none, none⟩ = (['['], some ['[', ffChar]) ∧
    (∀ (t : Triple) (k : Str), k ∈ getHashes t →
      inLexRange ['['] ['[', ffChar] k = true) ∧
    (∀ store : Store, (∀ k ∈ store, ∃ t : Triple, k ∈ getHashes t) →
      deleteOp store ⟨none, none, none⟩ = []) := by
  refine ⟨rfl, hash_in_full_range, ?_⟩
  intro store hstore
  have hrange : deleteOp store ⟨none, none, none⟩ =
      zremrangebylexStore store ['['] ['[', ffChar] := rfl
  rw [hrange]
  unfold zremrangebylexStore
  rw [List.filter_eq_nil_iff]
  intro k hk
  rcases hstore k hk with ⟨t, ht⟩
  simp [hash_in_full_range t k ht]

/-- Witness for C9: deleting everything from the store holding one
triple's six keys. -/
theorem c9_delete_all_witness :
    deleteOp (getHashes tDemo) ⟨none, none, none⟩ = [] :=
  c9_delete_all.2.2 (getHashes tDemo) (fun _ hk => ⟨tDemo, hk⟩)

/-! ## C7: doubly-open filters are rejected before any store call -/

/-- **C7**.  A filter whose bounded field has neither `min` nor `max`
makes both `filter` and `count` reject with the open-ended-range error,
whatever the store contains: the rejection happens before any store
command is issued. -/
theorem c7_invalid_filter (f : Filter) (hmin : f.min = none)
    (hmax : f.max = none) :
    ∀ (store : Store) (d : Dir) (cursor : Option Triple),
      filterOp store f = .error .filterBothOpen ∧
      countOp store d cursor none (some f) = .error .filterBothOpen := by
  intro store d cursor
  have h : getHashFilterRange f = .error .filterBothOpen := by
    simp [getHashFilterRange, hmin, hmax]
  constructor
  · unfold filterOp
    rw [h]
    rfl
  · unfold countOp
    rw [if_neg (by simp), if_neg (by simp)]
    simp only [h, Except.map]
    rfl

/-- Witness for C7 at a concrete object-bounded filter. -/
theorem c7_invalid_filter_witness :
    filterOp [] ⟨.object, none, none, none, none, none⟩ =
      .error .filterBothOpen ∧
    countOp [] .after none none (some ⟨.object, none, none, none, none, none⟩) =
      .error .filterBothOpen :=
  c7_invalid_filter ⟨.object, none, none, none, none, none⟩ rfl rfl [] .after none

/-! ## C2: the semi-join filter -/

theorem mem_push_loop (m : Mat) (targets : List (Str × FieldName)) (tr x : Triple)
    (acc : List Triple) :
    x ∈ targets.foldl
        (fun acc2 p => if matBound m p.1 (tr.get p.2) then acc2 ++ [tr] else acc2)
        acc ↔
      x ∈ acc ∨ (x = tr ∧ ∃ p ∈ targets, matBound m p.1 (tr.get p.2) = true) := by
  induction targets generalizing acc with
  | nil => simp
  | cons p ps ih =>
    simp only [List.foldl_cons]
    cases hb : matBound m p.1 (tr.get p.2) with
    | false =>
      rw [if_neg (by simp [hb]), ih]
      constructor
      · rintro (h | ⟨rfl, q, hq, hm⟩)
        · exact Or.inl h
        · exact Or.inr ⟨rfl, q, List.mem_cons_of_mem _ hq, hm⟩
      · rintro (h | ⟨rfl, q, hq, hm⟩)
        · exact Or.inl h
        · rcases List.mem_cons.mp hq with rfl | hq'
          · rw [hm] at hb
            cases hb
          · exact Or.inr ⟨rfl, q, hq', hm⟩
    | true =>
      rw [if_pos (by simp [hb]), ih]
      constructor
      · rintro (h | ⟨rfl, q, hq, hm⟩)
        · rcases List.mem_append.mp h with h' | h'
          · exact Or.inl h'
          · have hx : x = tr := by simpa using h'
            exact Or.inr ⟨hx, p, List.mem_cons_self _ _, hb⟩
        · exact Or.inr ⟨rfl, q, List.mem_cons_of_mem _ hq, hm⟩
      · rintro (h | ⟨rfl, q, hq, hm⟩)
        · exact Or.inl (List.mem_append_left _ h)
        · exact Or.inl (List.mem_append_right _ (by simp))

theorem mem_semiJoinFiltered (m : Mat) (targets : List (Str × FieldName))
    (result : List Triple) (x : Triple) :
    x ∈ semiJoinFiltered m targets result ↔
      x ∈ result ∧ ∃ p ∈ targets, matBound m p.1 (x.get p.2) = true := by
  unfold semiJoinFiltered
  suffices h : ∀ acc : List Triple,
      x ∈ result.foldl
          (fun acc tr => targets.foldl
            (fun acc2 p =>
              if matBound m p.1 (tr.get p.2) then acc2 ++ [tr] else acc2) acc)
          acc ↔
        x ∈ acc ∨ (x ∈ result ∧ ∃ p ∈ targets, matBound m p.1 (x.get p.2) = true) by
    simpa using h []
  induction result with
  | nil => simp
  | cons tr trs ih =>
    intro acc
    simp only [List.foldl_cons, ih, mem_push_loop]
    constructor
    · rintro ((h | ⟨rfl, hp⟩) | ⟨hmem, hp⟩)
      · exact Or.inl h
      · exact Or.inr ⟨List.mem_cons_self _ _, hp⟩
      · exact Or.inr ⟨List.mem_cons_of_mem _ hmem, hp⟩
    · rintro (h | ⟨hmem, hp⟩)
      · exact Or.inl (Or.inl h)
      · rcases List.mem_cons.mp hmem with rfl | h'
        · exact Or.inl (Or.inr ⟨rfl, hp⟩)
        · exact Or.inr ⟨h', hp⟩

/-- **C2** (amended).  When at least one variable has been materialized,
the per-statement filter keeps exactly those result triples for which
*some* variable of the statement has a materialized set containing the
triple's value at that variable's position (pushed once per matching
variable); only when no bindings at all have been materialized are all
query results kept. -/
theorem c2_semijoin :
    (∀ (m : Mat) (targets : List (Str × FieldName)) (result : List Triple)
        (x : Triple), m.isEmpty = false →
      (x ∈ stepFilter m targets result ↔
        x ∈ result ∧ ∃ p ∈ targets, matBound m p.1 (x.get p.2) = true)) ∧
    (∀ (targets : List (Str × FieldName)) (result : List Triple),
      stepFilter ([] : Mat) targets result = result) := by
  constructor
  · intro m targets result x hm
    rw [stepFilter, if_neg (by simp [hm]), mem_semiJoinFiltered]
  · intro targets result
    simp [stepFilter]

/-- Witness for C2: the filter keeps the triple whose object is in the
materialized set of `Y`. -/
theorem c2_semijoin_witness : tCD ∈ stepFilter matY tgtY [tCD] :=
  (c2_semijoin.1 matY tgtY [tCD] tCD (by decide)).mpr
    ⟨by simp, (cs "Y", .object), by simp [tgtY], by decide⟩

/-! ## Monad computation lemmas for `Except` -/

theorem except_bind_ok {α β : Type} (a : α) (f : α → Except Err β) :
    (Except.ok a >>= f : Except Err β) = f a := rfl

theorem except_bind_error {α β : Type} (e : Err) (f : α → Except Err β) :
    (Except.error e >>= f : Except Err β) = Except.error e := rfl

/-! ## C8: unknown variable tokens -/

theorem buildTargets_unknown (st : SearchStatement) (h : hasUnknown st = true) :
    buildTargets st = .error .unknownVariable := by
  rcases st with ⟨fs, fp, fo⟩
  rcases fs with s1 | (_ | k1) <;> rcases fp with s2 | (_ | k2) <;>
    rcases fo with s3 | (_ | k3) <;>
    first
    | rfl
    | simp [hasUnknown, SField.isUnknown] at h

theorem processStatement_unknown_not_complex (store : Store) (m : Mat)
    (st : SearchStatement) (hu : hasUnknown st = true)
    (hc : isComplexStatement st = false) :
    processStatement store m st = .error .unknownVariable := by
  unfold processStatement
  rw [if_neg (by simp [hc]), buildTargets_unknown st hu]
  rfl

theorem processStatement_unknown (store : Store) (m : Mat)
    (st : SearchStatement) (hu : hasUnknown st = true) :
    processStatement store m st = .error .complexStatement ∨
    processStatement store m st = .error .unknownVariable := by
  cases hc : isComplexStatement st with
  | true =>
    left
    unfold processStatement
    rw [if_pos (by simp [hc])]
    rfl
  | false => exact Or.inr (processStatement_unknown_not_complex store m st hu hc)

theorem searchRun_unknown (store : Store) :
    ∀ (ss : List SearchStatement) (m : Mat),
      (∃ st ∈ ss, hasUnknown st = true) →
      ∃ e, searchRun store m ss = .error e := by
  intro ss
  induction ss with
  | nil =>
    intro m h
    simp at h
  | cons st rest ih =>
    intro m h
    by_cases hu : hasUnknown st = true
    · rcases processStatement_unknown store m st hu with hp | hp
      · exact ⟨Err.complexStatement, by simp [searchRun, hp, except_bind_error]⟩
      · exact ⟨Err.unknownVariable, by simp [searchRun, hp, except_bind_error]⟩
    · have h' : ∃ st' ∈ rest, hasUnknown st' = true := by
        rcases h with ⟨st', hmem, hu'⟩
        rcases List.mem_cons.mp hmem with rfl | hmem'
        · exact absurd hu' hu
        · exact ⟨st', hmem', hu'⟩
      cases hps : processStatement store m st with
      | error e => exact ⟨e, by simp [searchRun, hps, except_bind_error]⟩
      | ok pr =>
        obtain ⟨m', q⟩ := pr
        rcases ih m' h' with ⟨e, he⟩
        exact ⟨e, by simp [searchRun, hps, he, except_bind_ok, except_bind_error]⟩

/-- **C8** (amended).  A statement field holding a token not obtained
from `v()` always makes `search` reject; the error is the
unknown-variable error whenever the offending statement is not an
all-variables statement (the all-variables check fires first and raises
the complex-statement error instead). -/
theorem c8_unknown_variable :
    (∀ (store : Store) (ss : List SearchStatement),
      (∃ st ∈ ss, hasUnknown st = true) →
      ∃ e, searchOp store ss = .error e) ∧
    (∀ (store : Store) (st : SearchStatement) (rest : List SearchStatement),
      hasUnknown st = true → isComplexStatement st = false →
      searchOp store (st :: rest) = .error .unknownVariable) := by
  constructor
  · intro store ss h
    rcases searchRun_unknown store ss [] h with ⟨e, he⟩
    exact ⟨e, by simp [searchOp, he, Except.map]⟩
  · intro store st rest hu hc
    have hp := processStatement_unknown_not_complex store [] st hu hc
    simp [searchOp, searchRun, hp, except_bind_error, Except.map]

/-- Witness for C8 at a concrete one-statement search. -/
theorem c8_unknown_variable_witness :
    searchOp ([] : Store)
        [⟨.var none, .lit (cs "x"), .var (some (cs "b"))⟩] =
      .error .unknownVariable :=
  c8_unknown_variable.2 [] ⟨.var none, .lit (cs "x"), .var (some (cs "b"))⟩ []
    (by decide) (by decide)

/-! ## C10: search strips the variable fields from its input -/

theorem buildTargets_strip (st : SearchStatement)
    (pr : List (Str × FieldName) × MutStatement)
    (h : buildTargets st = .ok pr) : pr.2 = stripVars st := by
  rcases st with ⟨fs, fp, fo⟩
  rcases fs with s1 | (_ | k1) <;> rcases fp with s2 | (_ | k2) <;>
    rcases fo with s3 | (_ | k3) <;>
    first
    | exact Except.noConfusion h
    | (injection h with h1; subst h1; rfl)

theorem processStatement_strip (store : Store) (m : Mat)
    (st : SearchStatement) (res : Mat × MutStatement)
    (h : processStatement store m st = .ok res) : res.2 = stripVars st := by
  unfold processStatement at h
  by_cases hc : isComplexStatement st = true
  · rw [if_pos hc] at h
    exact Except.noConfusion h
  · rw [if_neg hc] at h
    cases hbt : buildTargets st with
    | error e =>
      rw [hbt] at h
      exact Except.noConfusion h
    | ok pr =>
      obtain ⟨ts, mq⟩ := pr
      rw [hbt] at h
      simp only [except_bind_ok] at h
      cases hq : queryOp store (toPartial mq) with
      | error e =>
        rw [hq] at h
        exact Except.noConfusion h
      | ok result =>
        rw [hq] at h
        simp only [except_bind_ok] at h
        injection h with h1
        rw [← h1]
        exact buildTargets_strip st (ts, mq) hbt

/-- **C10**.  Whenever `search` completes, every statement object the
caller passed in retains exactly its literal fields: each field that held
a variable token has been deleted in place (the residual statement
objects are modelled explicitly by `searchMutations`). -/
theorem c10_search_mutation :
    ∀ (store : Store) (ss : List SearchStatement) (ms : List MutStatement),
      searchMutations store ss = .ok ms → ms = ss.map stripVars := by
  intro store ss
  suffices hrun : ∀ (m : Mat) (res : Mat × List MutStatement),
      searchRun store m ss = .ok res → res.2 = ss.map stripVars by
    intro ms h
    unfold searchMutations at h
    cases hr : searchRun store [] ss with
    | error e =>
      rw [hr] at h
      exact Except.noConfusion h
    | ok res =>
      rw [hr] at h
      simp only [Except.map] at h
      injection h with h1
      rw [← h1]
      exact hrun [] res hr
  induction ss with
  | nil =>
    intro m res h
    unfold searchRun at h
    injection h with h1
    rw [← h1]
    rfl
  | cons st rest ih =>
    intro m res h
    unfold searchRun at h
    cases hps : processStatement store m st with
    | error e =>
      rw [hps] at h
      exact Except.noConfusion h
    | ok pr =>
      obtain ⟨m', q⟩ := pr
      rw [hps] at h
      simp only [except_bind_ok] at h
      cases hsr : searchRun store m' rest with
      | error e =>
        rw [hsr] at h
        exact Except.noConfusion h
      | ok res' =>
        obtain ⟨mf, qs⟩ := res'
        rw [hsr] at h
        simp only [except_bind_ok] at h
        injection h with h1
        rw [← h1]
        show q :: qs = (st :: rest).map stripVars
        have hq : q = stripVars st :=
          processStatement_strip store m st (m', q) hps
        have hqs : qs = rest.map stripVars := ih m' (mf, qs) hsr
        rw [List.map_cons, hq, hqs]

/-- Witness for C10: the residual statements of the concrete scenario are
the literal-only records. -/
theorem c10_search_mutation_witness :
    searchMutations storeC2 stmtsC2 = .ok resC10.2 ∧
    resC10.2 = stmtsC2.map stripVars :=
  ⟨by decide, c10_search_mutation storeC2 stmtsC2 resC10.2 (by decide)⟩

end RedisHexastore
